import Mathlib

/-!
# Go-Learning, chapter 05 (Functions): a shallow embedding of `main.go`

The functions of `05-Functions/src/main.go` are embedded as Lean definitions
and the properties of the chapter's specification are stated over them.

Conventions of the embedding:

* Go's `int` is the 64-bit two's-complement integer of the usual targets
  (amd64, arm64).  A value of type `int` is an `Int` in `[minInt, maxInt]`
  and every arithmetic operator reduces its exact result with `wrapInt`.
* A run-time panic is an explicit outcome (`Exec.panic`); a function that
  may panic returns `Exec α`.
* Standard output is the list of lines written so far.
* Memory that Go shares between caller and callee (the backing array of a
  slice, the table of a map, a captured variable) lives in an explicit
  store that is passed in and returned.
-/

namespace GoFunctions

/-! ## Machine integers -/

/-- Smallest value of Go's 64-bit `int`. -/
def minInt : Int := -9223372036854775808

/-- Largest value of Go's 64-bit `int`. -/
def maxInt : Int := 9223372036854775807

/-- The values an `int` variable can hold. -/
def InRange (x : Int) : Prop := minInt ≤ x ∧ x ≤ maxInt

instance (x : Int) : Decidable (InRange x) := by
  unfold InRange; infer_instance

/-- Two's-complement reduction of an exact result into the range of `int`. -/
def wrapInt (x : Int) : Int :=
  (x + 9223372036854775808) % 18446744073709551616 - 9223372036854775808

/-- Run-time panics the program can raise. -/
inductive RuntimePanic where
  /-- Integer division or remainder by zero. -/
  | divideByZero
  /-- Assignment to an entry of a nil map. -/
  | nilMapAssign
  deriving DecidableEq, Repr

/-- Outcome of running Go code that may panic. -/
inductive Exec (α : Type) where
  /-- Normal completion with a value. -/
  | ret (v : α)
  /-- The goroutine panicked; the run is aborted. -/
  | panic (p : RuntimePanic)
  deriving DecidableEq, Repr

/-- Sequencing: a panic in the first computation skips the second. -/
def Exec.bind {α β : Type} (x : Exec α) (f : α → Exec β) : Exec β :=
  match x with
  | .ret v => f v
  | .panic p => .panic p

instance : Monad Exec where
  pure := Exec.ret
  bind := Exec.bind

/-- Go's `x + y` on `int`. -/
def goAdd (x y : Int) : Int := wrapInt (x + y)

/-- Go's `x - y` on `int`. -/
def goSub (x y : Int) : Int := wrapInt (x - y)

/-- Go's `x * y` on `int`. -/
def goMul (x y : Int) : Int := wrapInt (x * y)

/-- Go's `x / y` on `int`: panics when `y` is zero, otherwise the quotient
truncated toward zero, reduced into range. -/
def goQuo (x y : Int) : Exec Int :=
  if y = 0 then .panic .divideByZero else .ret (wrapInt (Int.tdiv x y))

/-- Go's `x % y` on `int`: panics when `y` is zero, otherwise the remainder
of the truncated division (it has the sign of `x` and is smaller than `y`
in absolute value, so it needs no reduction). -/
def goRem (x y : Int) : Exec Int :=
  if y = 0 then .panic .divideByZero else .ret (Int.tmod x y)

/-! ## Errors -/

/-- An error value made by `errors.New`: its message. -/
structure GoError where
  msg : String
  deriving DecidableEq, Repr

/-- Go's `errors.New`. -/
def errorsNew (text : String) : GoError := ⟨text⟩

/-- Whether a result triple of `divmod` carries a non-nil error. -/
def signalsError : Exec (Int × Int × Option GoError) → Bool
  | .ret (_, _, some _) => true
  | _ => false

/-! ## `div`, `addNums`, `divmod`, `divmodNamed` -/

/-- Source: `func div(num int, den int) int`. -/
def div (num den : Int) : Exec Int :=
  if den = 0 then
    .ret 0
  else
    goQuo num den

/-- Source: `func addNums(nums ...int) int`; the loop
`for _, n := range nums { res += n }` starting from the zero value. -/
def addNums (nums : List Int) : Int :=
  nums.foldl (fun res n => goAdd res n) 0

/-- Source: `func divmod(num, den int) (int, int, error)`; a nil error is
`none`. -/
def divmod (num den : Int) : Exec (Int × Int × Option GoError) :=
  if den = 0 then
    .ret (0, 0, some (errorsNew "cannot divide by 0"))
  else do
    let q ← goQuo num den
    let r ← goRem num den
    pure (q, r, none)

/-- Source: `func divmodNamed(num, den int) (res int, mod int, err error)`;
the named results start at their zero values. -/
def divmodNamed (num den : Int) : Exec (Int × Int × Option GoError) :=
  let res : Int := 0
  let mod : Int := 0
  let err : Option GoError := none
  if den = 0 then
    let err := some (errorsNew "cannot divide by 0")
    .ret (res, mod, err)
  else do
    let q ← goQuo num den
    let r ← goRem num den
    let res := q
    let mod := r
    pure (res, mod, none)

/-! ## The calculator's operations -/

/-- Source: `func add(i int, j int) int { return i + j }`. -/
def add (i j : Int) : Int := goAdd i j

/-- Source: `func sub(i int, j int) int { return i - j }`. -/
def sub (i j : Int) : Int := goSub i j

/-- Source: `func mul(i int, j int) int { return i * j }`. -/
def mul (i j : Int) : Int := goMul i j

/-- Source: `func divs(i int, j int) int { return i / j }`. -/
def divs (i j : Int) : Exec Int := goQuo i j

/-! ## Standard output -/

/-- Source: `strconv.ErrSyntax` and `strconv.ErrRange`, the two causes a
`*strconv.NumError` of `Atoi` can carry. -/
inductive NumErrKind where
  /-- The text is not a decimal integer (`invalid syntax`). -/
  | invalid
  /-- The value does not fit an `int` (`value out of range`). -/
  | range
  deriving DecidableEq, Repr

/-- Source: `strconv.NumError`, the error of a failed conversion: the
function that failed, its input and the cause. -/
structure NumError where
  func : String
  num : String
  kind : NumErrKind
  deriving DecidableEq, Repr

/-- One line written to standard output. -/
inductive Line where
  /-- A line given by its text. -/
  | text (s : String)
  /-- The line `fmt.Println(err)` writes for a conversion error: the text
  of `err.Error()`. -/
  | err (e : NumError)
  deriving DecidableEq, Repr

/-- Standard output: the lines written so far, oldest first. -/
abbrev Stdout := List Line

/-- Go's `fmt.Println` on operands already formatted: they are joined by
single blanks into one line. -/
def Println (operands : List String) (out : Stdout) : Stdout :=
  out ++ [.text (" ".intercalate operands)]

/-- Go's `fmt.Println(err)` for a conversion error. -/
def PrintlnErr (e : NumError) (out : Stdout) : Stdout :=
  out ++ [.err e]

/-- Default format of an `int`. -/
def fmtInt (n : Int) : String := toString n

/-- Default format of a `[]string`: the elements between brackets. -/
def fmtStrings (xs : List String) : String := "[" ++ " ".intercalate xs ++ "]"

/-! ## Call by value: `modifyFails` -/

/-- Source: `type Person2 struct { age int; name string }`. -/
structure Person2 where
  age : Int
  name : String
  deriving DecidableEq, Repr

/-- Default format of a `Person2`: its fields between braces. -/
def fmtPerson2 (p : Person2) : String := "\x7b" ++ fmtInt p.age ++ " " ++ p.name ++ "\x7d"

/-- A value held by a variable of one of the three parameter types. -/
inductive Value where
  | int (n : Int)
  | str (s : String)
  | person (p : Person2)
  deriving DecidableEq, Repr

/-- The variables alive in the program, one cell each; a variable is named
by the index of its cell. -/
abbrev Vars := List Value

/-- Body of `modifyFails`, run on the cells `ci`, `cs`, `cp` of its three
parameters: `i = i * 2`, `s = "Goodbye"`, `p.name = "Bob"`. -/
def modifyFailsBody (σ : Vars) (ci cs cp : Nat) : Vars :=
  let σ : Vars := match σ[ci]? with
    | some (.int i) => σ.set ci (.int (goMul i 2))
    | _ => σ
  let σ : Vars := σ.set cs (.str "Goodbye")
  let σ : Vars := match σ[cp]? with
    | some (.person p) => σ.set cp (.person { p with name := "Bob" })
    | _ => σ
  σ

/-- The variables at the end of the body of `modifyFails(i, s, p)`: the call
makes three new variables, initialised with the values of the arguments,
and runs the body on them. -/
def modifyFailsFrame (σ : Vars) (i : Int) (s : String) (p : Person2) : Vars :=
  let ci := σ.length
  let σ : Vars := σ ++ [.int i, .str s, .person p]
  modifyFailsBody σ ci (ci + 1) (ci + 2)

/-- Source: `func modifyFails(i int, s string, p Person2)`: the variables
after the call has returned and its parameters are gone. -/
def modifyFails (σ : Vars) (i : Int) (s : String) (p : Person2) : Vars :=
  (modifyFailsFrame σ i s p).take σ.length

/-- Source: `main`, "Example of Call-By-Value": declares `i`, `s`, `p`,
calls `modifyFails(i, s, p)` and prints the three variables. -/
def mainCallByValue (out : Stdout) : Vars × Stdout :=
  let σ : Vars := [.int 2, .str "Hello", .person { age := 0, name := "" }]
  let σ : Vars :=
    match σ with
    | [.int i, .str s, .person p] => modifyFails σ i s p
    | _ => σ
  match σ with
  | [.int i, .str s, .person p] => (σ, Println [fmtInt i, s, fmtPerson2 p] out)
  | _ => (σ, out)

/-! ## Maps: `modifyMap` -/

/-- The table of a map from `int` to `string`: its entries, at most one for
a key as long as it is built with `MapTable.set`. -/
abbrev MapTable := List (Int × String)

/-- The element stored under `k`, if any. -/
def MapTable.get (t : MapTable) (k : Int) : Option String :=
  (t.find? (fun e => e.1 = k)).map (fun e => e.2)

/-- The table after `m[k] = v`. -/
def MapTable.set (t : MapTable) (k : Int) (v : String) : MapTable :=
  (k, v) :: t.filter (fun e => e.1 ≠ k)

/-- The table after `delete(m, k)`. -/
def MapTable.delete (t : MapTable) (k : Int) : MapTable :=
  t.filter (fun e => e.1 ≠ k)

/-- The tables of the maps made so far. A map value is `none` (the nil map)
or `some a`, a reference to the table at index `a`; copying a map value
copies the reference. -/
abbrev MapHeap := List MapTable

/-- Go's `m[k]` read: a nil map has no entries. -/
def mapIndex (h : MapHeap) (m : Option Nat) (k : Int) : Option String :=
  match m with
  | none => none
  | some a => (h.getD a []).get k

/-- Go's `len(m)`. -/
def mapLen (h : MapHeap) (m : Option Nat) : Nat :=
  match m with
  | none => 0
  | some a => (h.getD a []).length

/-- Go's `m[k] = v`: panics on a nil map. -/
def mapAssign (h : MapHeap) (m : Option Nat) (k : Int) (v : String) : Exec MapHeap :=
  match m with
  | none => .panic .nilMapAssign
  | some a => .ret (h.set a ((h.getD a []).set k v))

/-- Go's `delete(m, k)`: a no-op on a nil map. -/
def mapDelete (h : MapHeap) (m : Option Nat) (k : Int) : MapHeap :=
  match m with
  | none => h
  | some a => h.set a ((h.getD a []).delete k)

/-- Source: `func modifyMap(m map[int]string)`. -/
def modifyMap (h : MapHeap) (m : Option Nat) : Exec MapHeap := do
  let h ← mapAssign h m 2 "hello"
  let h ← mapAssign h m 3 "goodbye"
  pure (mapDelete h m 1)

/-- Source: `main`, the map half of "Example of Map-Slice Modification
Calls": makes `mapMod` from the literal `{1: "first", 2: "second"}` and
calls `modifyMap(mapMod)`; the result is the heap and `mapMod`. -/
def mainMapDemo : Exec (MapHeap × Option Nat) := do
  let h : MapHeap := [[(1, "first"), (2, "second")]]
  let mapMod : Option Nat := some 0
  let h ← modifyMap h mapMod
  pure (h, mapMod)

/-! ## Slices: `modifySlice` -/

/-- The arrays allocated so far; an array never changes its length. -/
abbrev ArrayHeap := List (List Int)

/-- A slice value: the backing array, the index in it of the slice's first
element, the length and the capacity. Copying a slice value copies these
four and shares the array. A nil slice has length and capacity zero. -/
structure Slice where
  arr : Nat
  off : Nat
  len : Nat
  cap : Nat
  deriving DecidableEq, Repr

/-- A slice value the program can hold: the length is within the capacity
and the capacity within the backing array. -/
def Slice.WF (h : ArrayHeap) (s : Slice) : Prop :=
  s.len ≤ s.cap ∧ (0 < s.cap → s.arr < h.length ∧ s.off + s.cap ≤ (h.getD s.arr []).length)

instance (h : ArrayHeap) (s : Slice) : Decidable (s.WF h) := by
  unfold Slice.WF; infer_instance

/-- Go's `s[k]` read, for `k < len(s)`. -/
def sliceGet (h : ArrayHeap) (s : Slice) (k : Nat) : Int :=
  (h.getD s.arr []).getD (s.off + k) 0

/-- Go's `s[k] = v`, for `k < len(s)`: a write into the backing array. -/
def sliceSet (h : ArrayHeap) (s : Slice) (k : Nat) (v : Int) : ArrayHeap :=
  h.set s.arr ((h.getD s.arr []).set (s.off + k) v)

/-- The elements `s[0], ..., s[len(s)-1]` as the holder of `s` sees them. -/
def sliceView (h : ArrayHeap) (s : Slice) : List Int :=
  ((h.getD s.arr []).drop s.off).take s.len

/-- Go's `append(s, v)`. With spare capacity the element is written into
the shared backing array right after the slice; otherwise a new array is
allocated with the old elements, `v` and zeros up to the new capacity.
The new capacity is chosen by the run time: `growCap` is its policy. -/
def append (growCap : Nat → Nat) (h : ArrayHeap) (s : Slice) (v : Int) : ArrayHeap × Slice :=
  if s.len < s.cap then
    (sliceSet h s s.len v, { s with len := s.len + 1 })
  else
    let newCap := max (growCap s.cap) (s.len + 1)
    let fresh := sliceView h s ++ [v] ++ List.replicate (newCap - (s.len + 1)) 0
    (h ++ [fresh], { arr := h.length, off := 0, len := s.len + 1, cap := newCap })

/-- The loop `for k, v := range s { s[k] = v * 2 }` over the indices `ks`:
`v` is the element at `k` when the iteration starts. -/
def doubleLoop (s : Slice) : List Nat → ArrayHeap → ArrayHeap
  | [], h => h
  | k :: ks, h =>
    let v := sliceGet h s k
    doubleLoop s ks (sliceSet h s k (goMul v 2))

/-- The backing array after one iteration of that loop has doubled the
element at index `j` (used to state what the loop does to the array). -/
def dblAt (A : List Int) (j : Nat) : List Int :=
  A.set j (goMul (A.getD j 0) 2)

/-- Source: `func modifySlice(s []int)`. The parameter `s` is the callee's
copy of the slice value; the result is the heap and the callee's `s` when
the function returns. -/
def modifySlice (growCap : Nat → Nat) (h : ArrayHeap) (s : Slice) : ArrayHeap × Slice :=
  let h := doubleLoop s (List.range s.len) h
  let (h, s) := append growCap h s 10
  (h, s)

/-- Source: `main`, the slice half of "Example of Map-Slice Modification
Calls": makes `slcMod` from the literal `{1, 2, 3}`, calls
`modifySlice(slcMod)` and reads `slcMod` back. -/
def mainSliceDemo (growCap : Nat → Nat) : List Int :=
  let h : ArrayHeap := [[1, 2, 3]]
  let slcMod : Slice := { arr := 0, off := 0, len := 3, cap := 3 }
  let (h, _) := modifySlice growCap h slcMod
  sliceView h slcMod

/-! ## Closures: captured and shadowed variables -/

/-- The variables declared in one block, newest first. -/
abbrev Scope := List (String × Int)

/-- The blocks a piece of code can see, innermost first. -/
abbrev Env := List Scope

/-- The variable a name denotes: the nearest declaration going outward. -/
def Env.lookup : Env → String → Option Int
  | [], _ => none
  | sc :: outer, x =>
    match List.lookup x sc with
    | some v => some v
    | none => Env.lookup outer x

/-- The value of a variable in scope. -/
def Env.get (env : Env) (x : String) : Int := (env.lookup x).getD 0

/-- Go's `x := v`: a new variable in the innermost block. -/
def Env.declare : Env → String → Int → Env
  | [], x, v => [[(x, v)]]
  | sc :: outer, x, v => ((x, v) :: sc) :: outer

/-- The block with the newest declaration of `x` set to `v`. -/
def Scope.update : Scope → String → Int → Scope
  | [], _, _ => []
  | (y, w) :: rest, x, v => if y = x then (y, v) :: rest else (y, w) :: Scope.update rest x v

/-- Go's `x = v`: the variable the name denotes gets the value. -/
def Env.assign : Env → String → Int → Env
  | [], _, _ => []
  | sc :: outer, x, v =>
    match List.lookup x sc with
    | some _ => Scope.update sc x v :: outer
    | none => sc :: Env.assign outer x v

/-- Entering a function literal's body opens a block inside the block the
literal is written in. -/
def Env.enter (env : Env) : Env := [] :: env

/-- Leaving a block drops its variables. -/
def Env.leave (env : Env) : Env := env.tail

/-- Source: the function literal of "Example of Closure" in `main`; it
assigns to `a` without declaring it. -/
def fa (env : Env) (out : Stdout) : Env × Stdout :=
  let env := env.enter
  let out := Println ["Inside fa() before assignment, a =", fmtInt (env.get "a")] out
  let env := env.assign "a" 30
  let out := Println ["Inside fa() after assignment, a =", fmtInt (env.get "a")] out
  (env.leave, out)

/-- Source: `main`, "Example of Closure", run in the blocks `env` of
`main`. -/
def mainClosure (env : Env) (out : Stdout) : Env × Stdout :=
  let env := env.declare "a" 20
  let out := Println ["Outside fa(), a =", fmtInt (env.get "a")] out
  let (env, out) := fa env out
  let out := Println ["Outside fa(), a =", fmtInt (env.get "a")] out
  (env, out)

/-- Source: the function literal `fb` of "Example of Closure With Shadow"
in `main`; it declares a `b` of its own. -/
def fb (env : Env) (out : Stdout) : Env × Stdout :=
  let env := env.enter
  let out := Println ["Inside fb() before assignment, b =", fmtInt (env.get "b")] out
  let env := env.declare "b" 30
  let out := Println ["Inside fb() after assignment, b =", fmtInt (env.get "b")] out
  (env.leave, out)

/-- Source: `main`, "Example of Closure With Shadow", run in the blocks
`env` of `main`. -/
def mainClosureShadow (env : Env) (out : Stdout) : Env × Stdout :=
  let env := env.declare "b" 20
  let out := Println ["Outside fb(), b =", fmtInt (env.get "b")] out
  let (env, out) := fb env out
  let out := Println ["Outside fb(), b =", fmtInt (env.get "b")] out
  (env, out)

/-! ## Deferred calls: `deferExample` -/

/-- A deferred call: the function value with its arguments already
evaluated, ready to run against standard output. -/
abbrev Deferred := Stdout → Stdout

/-- Go's `defer f(args)`: the call is pushed on the function's stack of
deferred calls. -/
def deferCall (d : Deferred) (stack : List Deferred) : List Deferred := d :: stack

/-- What happens when the function returns: the deferred calls run, the
last one pushed first. -/
def runDeferred : List Deferred → Stdout → Stdout
  | [], out => out
  | d :: stack, out => runDeferred stack (d out)

/-- Source: `func deferExample() int`; the result is the returned value and
standard output after the deferred calls have run. -/
def deferExample (out : Stdout) : Int × Stdout :=
  let stack : List Deferred := []
  let a : Int := 10
  let stack := deferCall ((fun (val : Int) => Println ["First value:", fmtInt val]) a) stack
  let a : Int := 20
  let stack := deferCall ((fun (val : Int) => Println ["Second value:", fmtInt val]) a) stack
  let a : Int := 30
  let out := Println ["Exiting deferExample:", fmtInt a] out
  let result := a
  (result, runDeferred stack out)

/-! ## The calculator loop of `main` -/

/-- The digits of an unsigned decimal number, read left to right onto the
value `n` read so far, as `strconv.ParseUint` does for base 10 and 64 bits:
a character that is not a digit is a syntax error, a value above `2^64 - 1`
a range error, whichever comes first. -/
def parseDigits : List Char → Nat → Except NumErrKind Nat
  | [], n => .ok n
  | c :: cs, n =>
    if c.isDigit then
      let n1 := n * 10 + (c.toNat - '0'.toNat)
      if 18446744073709551615 < n1 then .error .range else parseDigits cs n1
    else
      .error .invalid

/-- Go's `strconv.Atoi` for a 64-bit `int`: an optional sign and at least
one decimal digit, the value within the range of `int`. The result is the
pair `(value, err)` with `err = none` for nil; on a syntax error the value
is `0`, on a range error the nearest end of the range. -/
def Atoi (s : String) : Int × Option NumError :=
  let fail (v : Int) (k : NumErrKind) : Int × Option NumError := (v, some ⟨"Atoi", s, k⟩)
  let (neg, digits) : Bool × List Char :=
    match s.toList with
    | '+' :: rest => (false, rest)
    | '-' :: rest => (true, rest)
    | cs => (false, cs)
  if digits = [] then
    fail 0 .invalid
  else
    match parseDigits digits 0 with
    | .error .invalid => fail 0 .invalid
    | .error .range => fail (if neg then minInt else maxInt) .range
    | .ok un =>
      if !neg && 9223372036854775808 ≤ un then fail maxInt .range
      else if neg && 9223372036854775808 < un then fail minInt .range
      else (if neg then -(un : Int) else (un : Int), none)

/-- Source: the map `opMap` of `main`, from an operator symbol to the
function that computes it. -/
def opMap (op : String) : Option (Int → Int → Exec Int) :=
  if op = "+" then some (fun i j => .ret (add i j))
  else if op = "-" then some (fun i j => .ret (sub i j))
  else if op = "*" then some (fun i j => .ret (mul i j))
  else if op = "/" then some divs
  else none

/-- Source: the body of `for _, expr := range expressions` in `main`, one
step of the calculator. `.ret out` is reaching the end of the body or a
`continue`, with standard output as it stands; `.panic` aborts the run. -/
def calcStep (expr : List String) (out : Stdout) : Exec Stdout :=
  match expr with
  | [e0, op, e2] =>
    match Atoi e0 with
    | (_, some err) => .ret (PrintlnErr err out)
    | (p1, none) =>
      match opMap op with
      | none => .ret (Println ["Unsupported Operator:", op] out)
      | some opFunc =>
        match Atoi e2 with
        | (_, some err) => .ret (PrintlnErr err out)
        | (p2, none) =>
          match opFunc p1 p2 with
          | .panic p => .panic p
          | .ret result => .ret (Println [fmtStrings expr, "=", fmtInt result] out)
  | _ => .ret (Println ["Invalid expression:", fmtStrings expr] out)

/-- Source: the loop `for _, expr := range expressions` of `main`: the
steps run in order; a panic ends the run with the output written so far. -/
def calcLoop : List (List String) → Stdout → Stdout × Option RuntimePanic
  | [], out => (out, none)
  | expr :: rest, out =>
    match calcStep expr out with
    | .panic p => (out, some p)
    | .ret out => calcLoop rest out

/-- Source: the literal `expressions` of `main`. -/
def expressions : List (List String) :=
  [["2", "+", "3"], ["2", "-", "3"], ["2", "*", "3"], ["2", "/", "3"], ["2", "%", "3"],
    ["two", "+", "three"], ["5"]]

/-! ## Arithmetic lemmas -/

theorem wrapInt_of_inRange {x : Int} (h : InRange x) : wrapInt x = x := by
  unfold InRange minInt maxInt at h
  unfold wrapInt
  omega

theorem wrapInt_inRange (x : Int) : InRange (wrapInt x) := by
  unfold InRange minInt maxInt wrapInt
  omega

theorem wrapInt_add_left (a b : Int) : wrapInt (wrapInt a + b) = wrapInt (a + b) := by
  unfold wrapInt
  omega

/-- The truncated quotient of an `int` by a non-zero `int` is an `int`,
except for `minInt / -1`. -/
theorem tdiv_inRange (a b : Int) (ha : InRange a) (hb : b ≠ 0)
    (hex : ¬ (a = minInt ∧ b = -1)) : InRange (Int.tdiv a b) := by
  unfold InRange minInt maxInt at *
  by_cases h1 : b = 1
  · subst h1; simp; omega
  by_cases h2 : b = -1
  · subst h2
    have hneg : Int.tdiv a (-1) = -a := by
      rw [Int.tdiv_neg]; simp
    rw [hneg]; omega
  · have hb2 : 2 ≤ b.natAbs := by omega
    have h := Int.natAbs_tdiv a b
    have h3 : (a.natAbs).div (b.natAbs) ≤ a.natAbs / 2 := by
      show a.natAbs / b.natAbs ≤ a.natAbs / 2
      exact Nat.div_le_div_left hb2 (by decide)
    omega

theorem goQuo_eq_tdiv (a b : Int) (ha : InRange a) (hb : b ≠ 0)
    (hex : ¬ (a = minInt ∧ b = -1)) : goQuo a b = .ret (Int.tdiv a b) := by
  unfold goQuo
  rw [if_neg hb, wrapInt_of_inRange (tdiv_inRange a b ha hb hex)]

theorem foldl_goAdd (nums : List Int) (acc : Int) :
    nums.foldl (fun res n => goAdd res n) (wrapInt acc) = wrapInt (acc + nums.sum) := by
  induction nums generalizing acc with
  | nil => simp
  | cons n ns ih =>
    simp only [List.foldl_cons, List.sum_cons]
    rw [show goAdd (wrapInt acc) n = wrapInt (acc + n) from wrapInt_add_left acc n, ih,
      Int.add_assoc]

/-! ## Claims on `div`, `addNums`, `divmod`, `divmodNamed` and the calculator -/

/-- C5, counterexample: for the `int` operands `minInt` and `-1` the divisor
is not zero, `div` returns `minInt`, and that is not the quotient truncated
toward zero (which is `2^63`). -/
theorem div_counterexample :
    InRange (-9223372036854775808) ∧ InRange (-1) ∧ (-1 : Int) ≠ 0 ∧
      div (-9223372036854775808) (-1) = .ret (-9223372036854775808) ∧
      Int.tdiv (-9223372036854775808) (-1) = 9223372036854775808 ∧
      div (-9223372036854775808) (-1) ≠ .ret (Int.tdiv (-9223372036854775808) (-1)) := by
  decide

/-- C5, amended: for `int` operands with `den ≠ 0`, `div num den` returns
the quotient truncated toward zero reduced into the `int` range, which is
the exact truncated quotient unless `num = minInt` and `den = -1`, where it
is `minInt`; `div num 0` returns `0`; `div` never panics. -/
theorem div_spec (num den : Int) (hn : InRange num) (hd : InRange den) :
    (den ≠ 0 → div num den = .ret (wrapInt (Int.tdiv num den))) ∧
      (den ≠ 0 → ¬ (num = minInt ∧ den = -1) → div num den = .ret (Int.tdiv num den)) ∧
      div minInt (-1) = .ret minInt ∧
      div num 0 = .ret 0 ∧
      (∃ v, InRange v ∧ div num den = .ret v) := by
  have _hd := hd
  refine ⟨?_, ?_, by decide, by simp [div], ?_⟩
  · intro h
    simp [div, goQuo, h]
  · intro h hex
    simp only [div, if_neg h]
    exact goQuo_eq_tdiv num den hn h hex
  · by_cases h : den = 0
    · exact ⟨0, by decide, by simp [div, h]⟩
    · exact ⟨wrapInt (Int.tdiv num den), wrapInt_inRange _, by simp [div, goQuo, h]⟩

/-- Witness of `div_spec` at `div(100, 20)`, the call made by `main`. -/
theorem div_spec_witness :
    InRange 100 ∧ InRange 20 ∧ div 100 20 = .ret (Int.tdiv 100 20) ∧ div 100 20 = .ret 5 :=
  ⟨by decide, by decide,
    (div_spec 100 20 (by decide) (by decide)).2.1 (by decide) (by decide), by decide⟩

/-- C6, counterexample: `addNums(maxInt, 1)` is `minInt`, not the
arithmetic sum `2^63`. -/
theorem addNums_counterexample :
    InRange 9223372036854775807 ∧ InRange 1 ∧
      addNums [9223372036854775807, 1] = -9223372036854775808 ∧
      List.sum [(9223372036854775807 : Int), 1] = 9223372036854775808 ∧
      addNums [9223372036854775807, 1] ≠ List.sum [(9223372036854775807 : Int), 1] := by
  decide

/-- C6, amended: `addNums` returns the arithmetic sum of its arguments
reduced into the 64-bit `int` range; it is the arithmetic sum itself
whenever that sum is an `int` (even if a partial sum is not), and `0` for
no arguments. -/
theorem addNums_spec (nums : List Int) :
    addNums nums = wrapInt nums.sum ∧
      (InRange nums.sum → addNums nums = nums.sum) ∧
      addNums [] = 0 := by
  have h : addNums nums = wrapInt nums.sum := by
    have h0 := foldl_goAdd nums 0
    simpa [addNums, wrapInt] using h0
  exact ⟨h, fun hr => by rw [h, wrapInt_of_inRange hr], rfl⟩

/-- C4, counterexample: for the `int` operands `minInt` and `-1` the divisor
is not zero and `divmod` returns the quotient `minInt`, not the truncated
quotient `2^63`. -/
theorem divmod_counterexample :
    InRange (-9223372036854775808) ∧ InRange (-1) ∧ (-1 : Int) ≠ 0 ∧
      divmod (-9223372036854775808) (-1) = .ret (-9223372036854775808, 0, none) ∧
      divmod (-9223372036854775808) (-1) ≠
        .ret (Int.tdiv (-9223372036854775808) (-1), Int.tmod (-9223372036854775808) (-1),
          none) := by
  decide

theorem divmodNamed_eq_divmod (num den : Int) : divmodNamed num den = divmod num den := by
  unfold divmodNamed divmod
  by_cases h : den = 0
  · simp [h, errorsNew]
  · simp [h]

/-- C4, amended: for `int` operands, `divmod` returns a non-nil error
exactly when `den = 0`, and then the triple is `(0, 0, error)`; when
`den ≠ 0` it returns the truncated quotient, the remainder and a nil error,
except that `divmod(minInt, -1)` returns the quotient `minInt` (the exact
quotient `2^63` reduced into range); `divmod(5, 2) = (2, 1, nil)`;
`divmod` never panics; `divmodNamed` returns the same triple on every input. -/
theorem divmod_spec (num den : Int) (hn : InRange num) (hd : InRange den) :
    (signalsError (divmod num den) = true ↔ den = 0) ∧
      (den = 0 → divmod num den = .ret (0, 0, some (errorsNew "cannot divide by 0"))) ∧
      (den ≠ 0 → ¬ (num = minInt ∧ den = -1) →
        divmod num den = .ret (Int.tdiv num den, Int.tmod num den, none)) ∧
      divmod minInt (-1) = .ret (minInt, 0, none) ∧
      divmod 5 2 = .ret (2, 1, none) ∧
      (∃ t, divmod num den = .ret t) ∧
      divmodNamed num den = divmod num den := by
  have _hd := hd
  have hne : den ≠ 0 → divmod num den =
      .ret (wrapInt (Int.tdiv num den), Int.tmod num den, none) := by
    intro h
    simp only [divmod, if_neg h, goQuo, goRem]
    rfl
  refine ⟨?_, ?_, ?_, by decide, by decide, ?_, divmodNamed_eq_divmod num den⟩
  · by_cases h : den = 0
    · simp [divmod, h, signalsError]
    · simp [hne h, h, signalsError]
  · intro h
    simp [divmod, h]
  · intro h hex
    rw [hne h, wrapInt_of_inRange (tdiv_inRange num den hn h hex)]
  · by_cases h : den = 0
    · exact ⟨(0, 0, some (errorsNew "cannot divide by 0")), by simp only [divmod, if_pos h]⟩
    · exact ⟨_, hne h⟩

/-- Witness of `divmod_spec` at `divmod(5, 2)`, the call made by `main`,
and at a zero divisor. -/
theorem divmod_spec_witness :
    InRange 5 ∧ InRange 2 ∧
      divmod 5 2 = .ret (Int.tdiv 5 2, Int.tmod 5 2, none) ∧
      signalsError (divmod 5 2) = false ∧
      signalsError (divmod 5 0) = true :=
  ⟨by decide, by decide,
    (divmod_spec 5 2 (by decide) (by decide)).2.2.1 (by decide) (by decide),
    by decide, by decide⟩

/-- C10, counterexample: `add(maxInt, 1)` is `minInt`, not `maxInt + 1`, and
`divs(minInt, -1)` is `minInt`, not the truncated quotient `2^63`. -/
theorem calculator_ops_counterexample :
    InRange 9223372036854775807 ∧ InRange 1 ∧
      add 9223372036854775807 1 = -9223372036854775808 ∧
      add 9223372036854775807 1 ≠ 9223372036854775807 + 1 ∧
      InRange (-9223372036854775808) ∧ InRange (-1) ∧
      divs (-9223372036854775808) (-1) = .ret (-9223372036854775808) ∧
      divs (-9223372036854775808) (-1) ≠ .ret (Int.tdiv (-9223372036854775808) (-1)) := by
  decide

/-- C10, amended: for `int` operands, `add`, `sub` and `mul` return the
exact sum, difference and product reduced into the 64-bit `int` range (so
the exact result whenever it is an `int`); for `j ≠ 0`, `divs i j` returns
the quotient truncated toward zero, except `divs(minInt, -1) = minInt`;
`add(2,3) = 5`, `sub(2,3) = -1`, `mul(2,3) = 6`, `divs(2,3) = 0`, and
`divs(-7, 2) = -3` (truncated, where rounding down would give `-4`). -/
theorem calculator_ops_spec (i j : Int) (hi : InRange i) (hj : InRange j) :
    (add i j = wrapInt (i + j) ∧ sub i j = wrapInt (i - j) ∧ mul i j = wrapInt (i * j)) ∧
      (InRange (i + j) → add i j = i + j) ∧
      (InRange (i - j) → sub i j = i - j) ∧
      (InRange (i * j) → mul i j = i * j) ∧
      (j ≠ 0 → ¬ (i = minInt ∧ j = -1) → divs i j = .ret (Int.tdiv i j)) ∧
      divs minInt (-1) = .ret minInt ∧
      (add 2 3 = 5 ∧ sub 2 3 = -1 ∧ mul 2 3 = 6 ∧ divs 2 3 = .ret 0) ∧
      (divs (-7) 2 = .ret (-3) ∧ Int.fdiv (-7) 2 = -4) := by
  have _hj := hj
  refine ⟨⟨rfl, rfl, rfl⟩, ?_, ?_, ?_, ?_, by decide, by decide, by decide⟩
  · intro h; exact wrapInt_of_inRange h
  · intro h; exact wrapInt_of_inRange h
  · intro h; exact wrapInt_of_inRange h
  · intro h hex; exact goQuo_eq_tdiv i j hi h hex

/-- Witness of `calculator_ops_spec` at the operands `2` and `3` used by
`main`. -/
theorem calculator_ops_spec_witness :
    InRange 2 ∧ InRange 3 ∧ add 2 3 = 2 + 3 ∧ divs 2 3 = .ret (Int.tdiv 2 3) :=
  ⟨by decide, by decide,
    (calculator_ops_spec 2 3 (by decide) (by decide)).2.1 (by decide),
    (calculator_ops_spec 2 3 (by decide) (by decide)).2.2.2.2.1 (by decide) (by decide)⟩

/-! ## Call by value -/

theorem getElem?_append_add {α : Type} (σ τ : List α) (k : Nat) :
    (σ ++ τ)[σ.length + k]? = τ[k]? := by
  rw [List.getElem?_append_right (Nat.le_add_right _ _), Nat.add_sub_cancel_left]

theorem set_append_add {α : Type} (σ τ : List α) (k : Nat) (v : α) :
    (σ ++ τ).set (σ.length + k) v = σ ++ τ.set k v := by
  rw [List.set_append, if_neg (by omega), Nat.add_sub_cancel_left]

theorem modifyFailsFrame_eq (σ : Vars) (i : Int) (s : String) (p : Person2) :
    modifyFailsFrame σ i s p =
      σ ++ [.int (goMul i 2), .str "Goodbye", .person { age := p.age, name := "Bob" }] := by
  have h0 := getElem?_append_add σ [Value.int i, .str s, .person p] 0
  have s0 := set_append_add σ [Value.int i, .str s, .person p] 0 (.int (goMul i 2))
  rw [Nat.add_zero] at h0 s0
  unfold modifyFailsFrame modifyFailsBody
  simp only [h0, s0, set_append_add, getElem?_append_add, List.getElem?_cons_zero, List.set_cons_zero,
    List.set_cons_succ, List.getElem?_cons_succ]

/-- C3: `modifyFails(i, s, p)` leaves every variable of the caller as it
was, whatever `i`, `s` and `p` are: at the end of its body the three
parameters hold `i * 2`, `"Goodbye"` and `p` with the name `"Bob"`, but they
are variables of their own, no variable that existed before the call has
changed, and after the return the variables are exactly those of before.
In `main`, `i`, `s`, `p` are still `2`, `"Hello"`, `{0, ""}` and the line
printed is `2 Hello {0 }`. -/
theorem modifyFails_spec (σ : Vars) (i : Int) (s : String) (p : Person2) :
    (modifyFailsFrame σ i s p)[σ.length]? = some (.int (goMul i 2)) ∧
      (modifyFailsFrame σ i s p)[σ.length + 1]? = some (.str "Goodbye") ∧
      (modifyFailsFrame σ i s p)[σ.length + 2]? =
        some (.person { age := p.age, name := "Bob" }) ∧
      (∀ c, c < σ.length → (modifyFailsFrame σ i s p)[c]? = σ[c]?) ∧
      modifyFails σ i s p = σ ∧
      (∀ out, mainCallByValue out =
        ([.int 2, .str "Hello", .person { age := 0, name := "" }],
          out ++ [.text "2 Hello \x7b0 \x7d"])) := by
  rw [modifyFailsFrame_eq]
  refine ⟨?_, ?_, ?_, ?_, ?_, ?_⟩
  · have h := getElem?_append_add σ
      [Value.int (goMul i 2), .str "Goodbye", .person { age := p.age, name := "Bob" }] 0
    rw [Nat.add_zero] at h
    rw [h]; rfl
  · rw [getElem?_append_add]; rfl
  · rw [getElem?_append_add]; rfl
  · intro c hc
    exact List.getElem?_append_left hc
  · simp [modifyFails, modifyFailsFrame_eq]
  · intro out
    rfl

/-! ## Maps -/

theorem MapTable.get_filter_ne (t : MapTable) (k k' : Int) :
    MapTable.get (t.filter (fun e => e.1 ≠ k)) k' = if k' = k then none else MapTable.get t k' := by
  induction t with
  | nil => simp [MapTable.get]
  | cons e t ih =>
    unfold MapTable.get at ih ⊢
    by_cases h1 : e.1 = k
    · have hf : List.filter (fun e => decide (e.1 ≠ k)) (e :: t) =
          List.filter (fun e => decide (e.1 ≠ k)) t := by
        simp [List.filter_cons, h1]
      rw [hf, ih]
      by_cases h2 : k' = k
      · simp [h2]
      · have h3 : ¬ e.1 = k' := by omega
        simp [h2, List.find?_cons, h3]
    · have hf : List.filter (fun e => decide (e.1 ≠ k)) (e :: t) =
          e :: List.filter (fun e => decide (e.1 ≠ k)) t := by
        simp [List.filter_cons, h1]
      rw [hf]
      by_cases h2 : e.1 = k'
      · have h3 : ¬ k' = k := by omega
        simp [h2, List.find?_cons, h3]
      · simp only [List.find?_cons, h2, decide_False]
        exact ih

theorem MapTable.get_set (t : MapTable) (k : Int) (v : String) (k' : Int) :
    (t.set k v).get k' = if k' = k then some v else t.get k' := by
  by_cases h : k' = k
  · simp [MapTable.set, MapTable.get, h]
  · have h' : ¬ k = k' := fun e => h e.symm
    have hf := MapTable.get_filter_ne t k k'
    rw [if_neg h] at hf
    rw [if_neg h, ← hf]
    simp only [MapTable.set, MapTable.get, List.find?_cons, h', decide_False]

theorem MapTable.get_delete (t : MapTable) (k k' : Int) :
    (t.delete k).get k' = if k' = k then none else t.get k' :=
  MapTable.get_filter_ne t k k'

theorem getD_set_self {α : Type} (h : List α) (a : Nat) (x d : α) (ha : a < h.length) :
    (h.set a x).getD a d = x := by
  simp [List.getD_eq_getElem?_getD, List.getElem?_set_self, ha]

theorem getD_set_ne {α : Type} (h : List α) (a b : Nat) (x d : α) (hab : a ≠ b) :
    (h.set a x).getD b d = h.getD b d := by
  simp [List.getD_eq_getElem?_getD, List.getElem?_set_ne hab]

/-- The heap `modifyMap` leaves behind for a map that is not nil. -/
theorem modifyMap_some (h : MapHeap) (a : Nat) (ha : a < h.length) :
    modifyMap h (some a) =
      .ret (h.set a ((((h.getD a []).set 2 "hello").set 3 "goodbye").delete 1)) := by
  simp only [modifyMap, bind, Exec.bind, mapAssign, pure, mapDelete, List.set_set]
  rw [getD_set_self _ _ _ _ ha, getD_set_self _ _ _ _ ha]

/-- C2: for every map value `m` of a caller (with `m` nil or a reference to
a table of the heap), `modifyMap(m)` returns exactly when `m` is not nil (on
the nil map the first assignment panics), and whenever it returns, the
caller's map has key 1 absent, key 2 mapped to `"hello"`, key 3 mapped to
`"goodbye"` and every other key mapped as before, while the other maps of
the heap are unchanged. Starting from `{1: "first", 2: "second"}`, as
`main` does, the map then has exactly the two entries `2: "hello"` and
`3: "goodbye"`. -/
theorem modifyMap_spec (h : MapHeap) (m : Option Nat) (hm : ∀ a, m = some a → a < h.length) :
    (m ≠ none → ∃ h', modifyMap h m = .ret h') ∧
      (m = none → modifyMap h m = .panic .nilMapAssign) ∧
      (∀ h', modifyMap h m = .ret h' →
        mapIndex h' m 1 = none ∧
        mapIndex h' m 2 = some "hello" ∧
        mapIndex h' m 3 = some "goodbye" ∧
        (∀ k, k ≠ 1 → k ≠ 2 → k ≠ 3 → mapIndex h' m k = mapIndex h m k) ∧
        (∀ m' k, m' ≠ m → mapIndex h' m' k = mapIndex h m' k)) ∧
      (∃ h', mainMapDemo = .ret (h', some 0) ∧ mapLen h' (some 0) = 2 ∧
        ∀ k, mapIndex h' (some 0) k =
          MapTable.get [(2, "hello"), (3, "goodbye")] k) := by
  refine ⟨?_, ?_, ?_, ?_⟩
  · intro hne
    cases m with
    | none => exact absurd rfl hne
    | some a => exact ⟨_, modifyMap_some h a (hm a rfl)⟩
  · intro hnone
    subst hnone
    rfl
  · intro h' hret
    cases m with
    | none =>
      have hp : modifyMap h none = .panic .nilMapAssign := rfl
      rw [hp] at hret
      exact Exec.noConfusion hret
    | some a =>
      have ha := hm a rfl
      rw [modifyMap_some h a ha] at hret
      injection hret with hret
      subst hret
      simp only [mapIndex]
      rw [getD_set_self _ _ _ _ ha]
      refine ⟨?_, ?_, ?_, ?_, ?_⟩
      · simp [MapTable.get_delete]
      · simp [MapTable.get_delete, MapTable.get_set]
      · simp [MapTable.get_delete, MapTable.get_set]
      · intro k h1 h2 h3
        simp [MapTable.get_delete, MapTable.get_set, h1, h2, h3]
      · intro m' k hne
        cases m' with
        | none => rfl
        | some b =>
          have hb : a ≠ b := fun e => hne (by rw [e])
          simp only [getD_set_ne _ _ _ _ _ hb]
  · refine ⟨[[(3, "goodbye"), (2, "hello")]], by decide, by decide, ?_⟩
    intro k
    by_cases h3 : k = 3
    · subst h3; decide
    · by_cases h2 : k = 2
      · subst h2; decide
      · have h3' : ¬ (3 : Int) = k := fun e => h3 e.symm
        have h2' : ¬ (2 : Int) = k := fun e => h2 e.symm
        simp [mapIndex, MapTable.get, List.find?_cons, h2', h3']

/-- Witness of `modifyMap_spec` at the map `{1: "first", 2: "second"}` of
`main`: the call returns and leaves key 1 absent. -/
theorem modifyMap_spec_witness :
    (∃ h', modifyMap [[(1, "first"), (2, "second")]] (some 0) = .ret h') ∧
      (∀ h', modifyMap [[(1, "first"), (2, "second")]] (some 0) = .ret h' →
        mapIndex h' (some 0) 1 = none) :=
  have hm : ∀ a, (some 0 : Option Nat) = some a →
      a < ([[(1, "first"), (2, "second")]] : MapHeap).length := by
    intro a ha
    injection ha with ha
    subst ha
    decide
  ⟨(modifyMap_spec [[(1, "first"), (2, "second")]] (some 0) hm).1 (by decide),
    fun h' hret => ((modifyMap_spec [[(1, "first"), (2, "second")]] (some 0) hm).2.2.1 h'
      hret).1⟩

/-! ## Deferred calls -/

/-- Deferred calls registered in the order `cs` run in the reverse order
when the function returns. -/
theorem runDeferred_registered (cs : List Deferred) (stack : List Deferred) (out : Stdout) :
    runDeferred (cs.foldl (fun st c => deferCall c st) stack) out =
      runDeferred stack (cs.foldr (fun c o => c o) out) := by
  induction cs generalizing stack out with
  | nil => rfl
  | cons c cs ih =>
    simp only [List.foldl_cons, List.foldr_cons]
    rw [ih]
    rfl

/-- C7: a call of `deferExample` returns 30 and adds exactly three lines to
standard output, in this order: `Exiting deferExample: 30` from the body,
`Second value: 20` from the deferred call registered second, and
`First value: 10` from the one registered first. -/
theorem deferExample_spec (out : Stdout) :
    deferExample out =
      (30, out ++ [.text "Exiting deferExample: 30", .text "Second value: 20",
        .text "First value: 10"]) := by
  simp only [deferExample, deferCall, runDeferred, Println, List.append_assoc,
    List.singleton_append]
  rfl

/-! ## Closures -/

theorem Env.lookup_declare (env : Env) (x : String) (v : Int) :
    (env.declare x v).lookup x = some v := by
  cases env <;> simp [Env.declare, Env.lookup, List.lookup_cons]

/-- C9: in `main`, whatever was declared before, after the function literal
that assigns `a = 30` has run the outer `a` is 30 (the variables of `main`
are those of before with `a` holding 30), and after `fb`, which declares its
own `b := 30`, has run the outer `b` is still 20 (the variables of `main`
are those of before with `b` holding 20); inside `fb` the value printed
after the declaration is 30. -/
theorem closure_spec (env : Env) (out : Stdout) :
    (mainClosure env out).1.lookup "a" = some 30 ∧
      (mainClosure env out).1 = env.declare "a" 30 ∧
      (mainClosure env out).2 = out ++ [.text "Outside fa(), a = 20",
        .text "Inside fa() before assignment, a = 20",
        .text "Inside fa() after assignment, a = 30", .text "Outside fa(), a = 30"] ∧
      (mainClosureShadow env out).1.lookup "b" = some 20 ∧
      (mainClosureShadow env out).1 = env.declare "b" 20 ∧
      (mainClosureShadow env out).2 = out ++ [.text "Outside fb(), b = 20",
        .text "Inside fb() before assignment, b = 20",
        .text "Inside fb() after assignment, b = 30", .text "Outside fb(), b = 20"] := by
  have ha : (mainClosure env out).1 = env.declare "a" 30 := by
    cases env <;> rfl
  have hb : (mainClosureShadow env out).1 = env.declare "b" 20 := by
    cases env <;> rfl
  refine ⟨?_, ha, ?_, ?_, hb, ?_⟩
  · rw [ha]; exact Env.lookup_declare env "a" 30
  · cases env <;> simp [mainClosure, fa, Println] <;> exact ⟨rfl, rfl, rfl, rfl⟩
  · rw [hb]; exact Env.lookup_declare env "b" 20
  · cases env <;> simp [mainClosureShadow, fb, Println] <;> exact ⟨rfl, rfl, rfl, rfl⟩

/-! ## The calculator loop -/

theorem opMap_some_cases (op : String) (f : Int → Int → Exec Int) (h : opMap op = some f) :
    (op = "/" ∧ f = divs) ∨ (op ≠ "/" ∧ ∀ i j, ∃ r, f i j = .ret r) := by
  unfold opMap at h
  by_cases h1 : op = "+"
  · rw [if_pos h1] at h
    injection h with h
    exact Or.inr ⟨by rw [h1]; decide, fun i j => ⟨add i j, by rw [← h]⟩⟩
  rw [if_neg h1] at h
  by_cases h2 : op = "-"
  · rw [if_pos h2] at h
    injection h with h
    exact Or.inr ⟨by rw [h2]; decide, fun i j => ⟨sub i j, by rw [← h]⟩⟩
  rw [if_neg h2] at h
  by_cases h3 : op = "*"
  · rw [if_pos h3] at h
    injection h with h
    exact Or.inr ⟨by rw [h3]; decide, fun i j => ⟨mul i j, by rw [← h]⟩⟩
  rw [if_neg h3] at h
  by_cases h4 : op = "/"
  · rw [if_pos h4] at h
    injection h with h
    exact Or.inl ⟨h4, h.symm⟩
  · rw [if_neg h4] at h
    exact Option.noConfusion h

/-- The errors the calculator step handles: an expression that is not three
strings, a first or third string that `Atoi` rejects, and a symbol that is
not in `opMap`, each write one line and let the loop continue. -/
theorem calcStep_reports (expr : List String) (out : Stdout) :
    (expr.length ≠ 3 →
        calcStep expr out = .ret (Println ["Invalid expression:", fmtStrings expr] out)) ∧
      (∀ e0 op e2 v err, expr = [e0, op, e2] → Atoi e0 = (v, some err) →
        calcStep expr out = .ret (PrintlnErr err out)) ∧
      (∀ e0 op e2 p1, expr = [e0, op, e2] → Atoi e0 = (p1, none) → opMap op = none →
        calcStep expr out = .ret (Println ["Unsupported Operator:", op] out)) ∧
      (∀ e0 op e2 p1 f v err, expr = [e0, op, e2] → Atoi e0 = (p1, none) → opMap op = some f →
        Atoi e2 = (v, some err) → calcStep expr out = .ret (PrintlnErr err out)) := by
  refine ⟨?_, ?_, ?_, ?_⟩
  · intro hlen
    match expr, hlen with
    | [], _ => rfl
    | [_], _ => rfl
    | [_, _], _ => rfl
    | [_, _, _], h => exact absurd rfl h
    | _ :: _ :: _ :: _ :: _, _ => rfl
  · intro e0 op e2 v err he h0
    subst he
    simp only [calcStep, h0]
  · intro e0 op e2 p1 he h0 hop
    subst he
    simp only [calcStep, h0, hop]
  · intro e0 op e2 p1 f v err he h0 hop h2
    subst he
    simp only [calcStep, h0, hop, h2]

/-- A calculator step panics exactly when the expression is
`[e0, "/", e2]` with `e0` an integer and `e2` an integer equal to zero. -/
theorem calcStep_panic_iff (expr : List String) (out : Stdout) :
    (∃ p, calcStep expr out = .panic p) ↔
      ∃ e0 e2 p1, expr = [e0, "/", e2] ∧ Atoi e0 = (p1, none) ∧ Atoi e2 = (0, none) := by
  constructor
  · rintro ⟨p, hp⟩
    match expr, hp with
    | [], hp => exact Exec.noConfusion hp
    | [_], hp => exact Exec.noConfusion hp
    | [_, _], hp => exact Exec.noConfusion hp
    | _ :: _ :: _ :: _ :: _, hp => exact Exec.noConfusion hp
    | [e0, op, e2], hp =>
      rcases h0 : Atoi e0 with ⟨p1, _ | err⟩
      · simp only [calcStep, h0] at hp
        cases hop : opMap op with
        | none => simp only [hop] at hp; exact Exec.noConfusion hp
        | some f =>
          simp only [hop] at hp
          rcases h2 : Atoi e2 with ⟨p2, _ | err⟩
          · simp only [h2] at hp
            rcases opMap_some_cases op f hop with ⟨hop', hf⟩ | ⟨_, hf⟩
            · subst hf
              by_cases hz : p2 = 0
              · subst hz
                exact ⟨e0, e2, p1, by rw [hop'], h0, h2⟩
              · simp [divs, goQuo, hz] at hp
            · obtain ⟨r, hr⟩ := hf p1 p2
              rw [hr] at hp
              exact Exec.noConfusion hp
          · simp only [h2] at hp
            exact Exec.noConfusion hp
      · simp only [calcStep, h0] at hp
        exact Exec.noConfusion hp
  · rintro ⟨e0, e2, p1, he, h0, h2⟩
    subst he
    refine ⟨.divideByZero, ?_⟩
    have hop : opMap "/" = some divs := rfl
    simp only [calcStep, h0, h2, hop]
    rfl

/-- C8, counterexample: the expression `["2", "/", "0"]` has three strings,
both operands are integers and `/` is in `opMap`, so its error is a
division by zero; the calculator step writes nothing for it and panics, and
a loop over it and `["2", "+", "3"]` ends there, the second expression
never evaluated. -/
theorem calcStep_division_by_zero :
    Atoi "2" = (2, none) ∧ Atoi "0" = (0, none) ∧
      calcStep ["2", "/", "0"] [] = .panic .divideByZero ∧
      calcLoop [["2", "/", "0"], ["2", "+", "3"]] [] = ([], some .divideByZero) ∧
      calcLoop [["2", "+", "3"]] [] = ([.text "[2 + 3] = 5"], none) := by
  decide

/-- C8, amended: for every expression handled by one step of the calculator
loop, an expression that is not three strings, a first or third string
that `Atoi` rejects, and an operator symbol that is not in `opMap` are each
reported with one line, after which the loop goes on with the next
expression; an expression whose operands and operator are valid and whose
operation returns writes its result line. The loop has no check for a zero
divisor: a step panics, and the loop ends there with the output so far,
exactly when the expression is `[e0, "/", e2]` with `e0` an integer and
`e2` an integer equal to zero. None of the seven expressions of `main` is
one: the loop over them writes seven lines and completes. -/
theorem calcStep_spec (expr : List String) (out : Stdout) :
    (expr.length ≠ 3 →
        calcStep expr out = .ret (Println ["Invalid expression:", fmtStrings expr] out)) ∧
      (∀ e0 op e2 v err, expr = [e0, op, e2] → Atoi e0 = (v, some err) →
        calcStep expr out = .ret (PrintlnErr err out)) ∧
      (∀ e0 op e2 p1, expr = [e0, op, e2] → Atoi e0 = (p1, none) → opMap op = none →
        calcStep expr out = .ret (Println ["Unsupported Operator:", op] out)) ∧
      (∀ e0 op e2 p1 f v err, expr = [e0, op, e2] → Atoi e0 = (p1, none) → opMap op = some f →
        Atoi e2 = (v, some err) → calcStep expr out = .ret (PrintlnErr err out)) ∧
      (∀ e0 op e2 p1 f p2 r, expr = [e0, op, e2] → Atoi e0 = (p1, none) → opMap op = some f →
        Atoi e2 = (p2, none) → f p1 p2 = .ret r →
        calcStep expr out = .ret (Println [fmtStrings expr, "=", fmtInt r] out)) ∧
      (∀ out' rest, calcStep expr out = .ret out' →
        calcLoop (expr :: rest) out = calcLoop rest out') ∧
      (∀ p rest, calcStep expr out = .panic p → calcLoop (expr :: rest) out = (out, some p)) ∧
      ((∃ p, calcStep expr out = .panic p) ↔
        ∃ e0 e2 p1, expr = [e0, "/", e2] ∧ Atoi e0 = (p1, none) ∧ Atoi e2 = (0, none)) ∧
      calcLoop expressions [] =
        ([.text "[2 + 3] = 5", .text "[2 - 3] = -1", .text "[2 * 3] = 6", .text "[2 / 3] = 0",
          .text "Unsupported Operator: %", .err ⟨"Atoi", "two", .invalid⟩,
          .text "Invalid expression: [5]"], none) := by
  obtain ⟨hlen, h0, hop, h2⟩ := calcStep_reports expr out
  refine ⟨hlen, h0, hop, h2, ?_, ?_, ?_, calcStep_panic_iff expr out, by decide⟩
  · intro e0 op e2 p1 f p2 r he ha hf hb hr
    subst he
    simp only [calcStep, ha, hf, hb, hr]
  · intro out' rest hret
    simp only [calcLoop, hret]
  · intro p rest hp
    simp only [calcLoop, hp]

/-! ## Slices -/

theorem set_getD_self {α : Type} (h : List α) (a : Nat) (d : α) : h.set a (h.getD a d) = h := by
  apply List.ext_getElem?
  intro i
  rw [List.getElem?_set]
  by_cases hai : a = i
  · subst hai
    by_cases hlt : a < h.length
    · simp [hlt, List.getD_eq_getElem?_getD]
    · simp [hlt, List.getElem?_eq_none (Nat.le_of_not_lt hlt)]
  · simp [hai]

/-- The loop only touches the backing array of the slice, by `dblAt` at
the indices it visits. -/
theorem doubleLoop_eq (s : Slice) (ks : List Nat) (h : ArrayHeap) :
    doubleLoop s ks h =
      h.set s.arr (ks.foldl (fun A k => dblAt A (s.off + k)) (h.getD s.arr [])) := by
  induction ks generalizing h with
  | nil => simp only [doubleLoop, List.foldl_nil]; exact (set_getD_self h s.arr []).symm
  | cons k ks ih =>
    simp only [doubleLoop, List.foldl_cons]
    rw [ih]
    by_cases ha : s.arr < h.length
    · simp only [sliceSet, sliceGet, List.set_set]
      rw [getD_set_self _ _ _ _ ha]
      rfl
    · have hle := Nat.le_of_not_lt ha
      have hle' : (sliceSet h s k (goMul (sliceGet h s k) 2)).length ≤ s.arr := by
        simp only [sliceSet, List.length_set]; exact hle
      rw [List.set_eq_of_length_le hle', List.set_eq_of_length_le hle]
      simp only [sliceSet]
      exact List.set_eq_of_length_le hle

theorem dblAt_length (A : List Int) (j : Nat) : (dblAt A j).length = A.length := by
  simp [dblAt]

theorem dblAt_getElem? (A : List Int) (j i : Nat) :
    (dblAt A j)[i]? = if j = i then A[i]?.map (fun v => goMul v 2) else A[i]? := by
  unfold dblAt
  rw [List.getElem?_set]
  by_cases hji : j = i
  · subst hji
    by_cases hlt : j < A.length
    · simp [hlt, List.getD_eq_getElem?_getD]
    · simp [hlt, List.getElem?_eq_none (Nat.le_of_not_lt hlt)]
  · simp [hji]

/-- After the loop has visited the first `n` indices of the slice, the
elements of the backing array at those indices are doubled and the others
are as before. -/
theorem foldl_dblAt_range (A : List Int) (off n : Nat) :
    ((List.range n).foldl (fun A k => dblAt A (off + k)) A).length = A.length ∧
      ∀ j, ((List.range n).foldl (fun A k => dblAt A (off + k)) A)[j]? =
        if off ≤ j ∧ j < off + n then A[j]?.map (fun v => goMul v 2) else A[j]? := by
  induction n with
  | zero =>
    refine ⟨rfl, fun j => ?_⟩
    have hno : ¬ (off ≤ j ∧ j < off + 0) := by omega
    rw [if_neg hno]
    rfl
  | succ n ih =>
    rw [List.range_succ, List.foldl_append]
    simp only [List.foldl_cons, List.foldl_nil]
    refine ⟨by rw [dblAt_length]; exact ih.1, fun j => ?_⟩
    rw [dblAt_getElem?, ih.2 j]
    by_cases h1 : off + n = j
    · have h2 : ¬ (off ≤ j ∧ j < off + n) := by omega
      have h3 : off ≤ j ∧ j < off + (n + 1) := by omega
      simp [h1, h2, h3]
    · by_cases h2 : off ≤ j ∧ j < off + n
      · have h3 : off ≤ j ∧ j < off + (n + 1) := by omega
        simp [h1, h2, h3]
      · have h3 : ¬ (off ≤ j ∧ j < off + (n + 1)) := by omega
        simp [h1, h2, h3]

theorem sliceView_getElem? (h : ArrayHeap) (s : Slice) (i : Nat) :
    (sliceView h s)[i]? = if i < s.len then (h.getD s.arr [])[s.off + i]? else none := by
  unfold sliceView
  rw [List.getElem?_take, List.getElem?_drop]

theorem sliceView_length (h : ArrayHeap) (s : Slice) (hwf : s.WF h) :
    (sliceView h s).length = s.len := by
  unfold sliceView
  rw [List.length_take, List.length_drop]
  obtain ⟨h1, h2⟩ := hwf
  by_cases hc : 0 < s.cap
  · have := (h2 hc).2
    omega
  · omega

theorem getD_append_left {α : Type} (h : List α) (x d : α) (a : Nat) (ha : a < h.length) :
    (h ++ [x]).getD a d = h.getD a d := by
  simp [List.getD_eq_getElem?_getD, List.getElem?_append_left ha]

theorem getD_append_length {α : Type} (h : List α) (x d : α) :
    (h ++ [x]).getD h.length d = x := by
  simp [List.getD_eq_getElem?_getD]

/-- What the loop of `modifySlice` does to the caller's view of a
well-formed slice: every element is doubled. -/
theorem sliceView_doubleLoop (h : ArrayHeap) (s : Slice) (hwf : s.WF h) :
    sliceView (doubleLoop s (List.range s.len) h) s =
      (sliceView h s).map (fun v => goMul v 2) := by
  apply List.ext_getElem?
  intro i
  rw [List.getElem?_map, sliceView_getElem?, sliceView_getElem?]
  by_cases hi : i < s.len
  · rw [if_pos hi, if_pos hi]
    have hcap : 0 < s.cap := by have := hwf.1; omega
    have ha := (hwf.2 hcap).1
    rw [doubleLoop_eq, getD_set_self _ _ _ _ ha, (foldl_dblAt_range _ _ _).2]
    rw [if_pos (by omega)]
  · rw [if_neg hi, if_neg hi]
    rfl

theorem WF_doubleLoop (h : ArrayHeap) (s : Slice) (hwf : s.WF h) :
    s.WF (doubleLoop s (List.range s.len) h) := by
  refine ⟨hwf.1, fun hcap => ?_⟩
  have ha := (hwf.2 hcap).1
  rw [doubleLoop_eq, List.length_set, getD_set_self _ _ _ _ ha, (foldl_dblAt_range _ _ _).1]
  exact hwf.2 hcap

/-- Go's `append` on a well-formed slice: the holder of the old slice value
sees the same elements as before, and the new slice value has one more
element, the appended one, after the old ones. -/
theorem append_spec (growCap : Nat → Nat) (h : ArrayHeap) (s : Slice) (v : Int)
    (hwf : s.WF h) :
    sliceView (append growCap h s v).1 s = sliceView h s ∧
      (append growCap h s v).2.len = s.len + 1 ∧
      sliceView (append growCap h s v).1 (append growCap h s v).2 = sliceView h s ++ [v] := by
  have hlen := sliceView_length h s hwf
  by_cases hlc : s.len < s.cap
  · have hcap : 0 < s.cap := by omega
    obtain ⟨ha, hoff⟩ := hwf.2 hcap
    simp only [append, if_pos hlc]
    refine ⟨?_, trivial, ?_⟩
    · apply List.ext_getElem?
      intro i
      rw [sliceView_getElem?, sliceView_getElem?]
      by_cases hi : i < s.len
      · rw [if_pos hi, if_pos hi]
        simp only [sliceSet]
        rw [getD_set_self _ _ _ _ ha, List.getElem?_set, if_neg (by omega)]
      · rw [if_neg hi, if_neg hi]
    · apply List.ext_getElem?
      intro i
      rw [sliceView_getElem?, List.getElem?_append, hlen, sliceView_getElem?]
      simp only [sliceSet]
      rw [getD_set_self _ _ _ _ ha, List.getElem?_set]
      by_cases hi : i < s.len
      · rw [if_pos (by omega), if_neg (by omega), if_pos hi, if_pos hi]
      · by_cases hi' : i = s.len
        · subst hi'
          rw [if_pos (by omega), if_pos rfl, if_pos (by omega), if_neg hi]
          simp
        · rw [if_neg (by omega), if_neg hi]
          have : 0 < i - s.len := by omega
          obtain ⟨m, hm⟩ : ∃ m, i - s.len = m + 1 := ⟨i - s.len - 1, by omega⟩
          rw [hm]
          rfl
  · simp only [append, if_neg hlc]
    refine ⟨?_, trivial, ?_⟩
    · apply List.ext_getElem?
      intro i
      rw [sliceView_getElem?, sliceView_getElem?]
      by_cases hi : i < s.len
      · rw [if_pos hi, if_pos hi]
        have hcap : 0 < s.cap := by have := hwf.1; omega
        rw [getD_append_left _ _ _ _ (hwf.2 hcap).1]
      · rw [if_neg hi, if_neg hi]
    · unfold sliceView at hlen ⊢
      simp only [getD_append_length, List.drop_zero]
      apply List.take_left'
      rw [List.length_append, hlen]
      rfl

/-- Where Go's `append` puts the new element on a well-formed slice: with
spare capacity it keeps the backing array, allocates nothing and writes the
element into the cell right after the slice, leaving every other cell of
that array alone; without spare capacity the new slice value points at the
start of a newly allocated array and every array that existed is as it
was. -/
theorem append_placement (growCap : Nat → Nat) (h : ArrayHeap) (s : Slice) (v : Int)
    (hwf : s.WF h) :
    (s.len < s.cap →
        (append growCap h s v).2.arr = s.arr ∧
        (append growCap h s v).2.off = s.off ∧
        (append growCap h s v).1.length = h.length ∧
        ((append growCap h s v).1.getD s.arr [])[s.off + s.len]? = some v ∧
        ∀ j, j ≠ s.off + s.len →
          ((append growCap h s v).1.getD s.arr [])[j]? = (h.getD s.arr [])[j]?) ∧
      (¬ s.len < s.cap →
        (append growCap h s v).2.arr = h.length ∧
        (append growCap h s v).2.off = 0 ∧
        (append growCap h s v).1.length = h.length + 1 ∧
        ∀ a, a < h.length → (append growCap h s v).1.getD a [] = h.getD a []) := by
  refine ⟨fun hlc => ?_, fun hlc => ?_⟩
  · have hcap : 0 < s.cap := by omega
    obtain ⟨ha, hoff⟩ := hwf.2 hcap
    simp only [append, if_pos hlc, sliceSet, List.length_set]
    rw [getD_set_self _ _ _ _ ha]
    refine ⟨trivial, trivial, trivial, ?_, ?_⟩
    · rw [List.getElem?_set, if_pos rfl, if_pos (by omega)]
    · intro j hj
      rw [List.getElem?_set, if_neg (fun e => hj e.symm)]
  · simp only [append, if_neg hlc, List.length_append, List.length_singleton]
    exact ⟨trivial, trivial, trivial, fun a ha => getD_append_left _ _ _ _ ha⟩

theorem doubleLoop_length (s : Slice) (ks : List Nat) (h : ArrayHeap) :
    (doubleLoop s ks h).length = h.length := by
  rw [doubleLoop_eq, List.length_set]

/-- The loop of `modifySlice` leaves the cells of the backing array outside
the slice, and the length of that array, as they were. -/
theorem doubleLoop_frame (h : ArrayHeap) (s : Slice) (ha : s.arr < h.length) :
    ((doubleLoop s (List.range s.len) h).getD s.arr []).length = (h.getD s.arr []).length ∧
      ∀ j, ¬ (s.off ≤ j ∧ j < s.off + s.len) →
        ((doubleLoop s (List.range s.len) h).getD s.arr [])[j]? = (h.getD s.arr [])[j]? := by
  rw [doubleLoop_eq, getD_set_self _ _ _ _ ha]
  refine ⟨(foldl_dblAt_range _ _ _).1, fun j hj => ?_⟩
  rw [(foldl_dblAt_range _ _ _).2, if_neg hj]

/-- C1, counterexample: the caller's slice `[2^62]` (length and capacity 1)
reads `[-2^63]` after `modifySlice`, which is not twice `2^62`. -/
theorem modifySlice_counterexample :
    Slice.WF [[4611686018427387904]] ⟨0, 0, 1, 1⟩ ∧
      InRange 4611686018427387904 ∧
      sliceView [[4611686018427387904]] ⟨0, 0, 1, 1⟩ = [4611686018427387904] ∧
      sliceView (modifySlice (fun c => 2 * c) [[4611686018427387904]] ⟨0, 0, 1, 1⟩).1
        ⟨0, 0, 1, 1⟩ = [-9223372036854775808] ∧
      sliceView (modifySlice (fun c => 2 * c) [[4611686018427387904]] ⟨0, 0, 1, 1⟩).1
        ⟨0, 0, 1, 1⟩ ≠
        (sliceView [[4611686018427387904]] ⟨0, 0, 1, 1⟩).map (fun v => 2 * v) := by
  decide

/-- C1, amended: for every slice value `s` a caller holds (any length and
capacity, any growth policy of `append`), after `modifySlice(s)` the
caller's slice has the length it had and its element at every index is
twice the original element reduced into the 64-bit `int` range, hence
exactly twice the original whenever that is an `int`; the callee's own
slice has one more element, the appended 10, at the index after the
caller's last, so 10 is not an element of the caller's slice. With spare
capacity (`len(s) < cap(s)`) the callee's slice keeps the caller's backing
array, nothing is allocated, the 10 is in that shared array in the cell
right after the caller's last element, and the cells before the slice and
after that cell are unchanged; without spare capacity the callee's slice is
at the start of a newly allocated array and the caller's backing array
keeps its length and, outside the slice, its cells. Starting from
`[1, 2, 3]`, the caller sees `[2, 4, 6]`. -/
theorem modifySlice_spec (growCap : Nat → Nat) (h : ArrayHeap) (s : Slice) (hwf : s.WF h) :
    (sliceView (modifySlice growCap h s).1 s).length = (sliceView h s).length ∧
      sliceView (modifySlice growCap h s).1 s =
        (sliceView h s).map (fun v => wrapInt (v * 2)) ∧
      (∀ (i : Nat) (v : Int), (sliceView h s)[i]? = some v → InRange (v * 2) →
        (sliceView (modifySlice growCap h s).1 s)[i]? = some (v * 2)) ∧
      (modifySlice growCap h s).2.len = s.len + 1 ∧
      sliceView (modifySlice growCap h s).1 (modifySlice growCap h s).2 =
        (sliceView h s).map (fun v => wrapInt (v * 2)) ++ [10] ∧
      (s.len < s.cap →
        (modifySlice growCap h s).2.arr = s.arr ∧
        (modifySlice growCap h s).2.off = s.off ∧
        (modifySlice growCap h s).1.length = h.length ∧
        ((modifySlice growCap h s).1.getD s.arr [])[s.off + s.len]? = some 10 ∧
        ∀ j, ¬ (s.off ≤ j ∧ j < s.off + s.len + 1) →
          ((modifySlice growCap h s).1.getD s.arr [])[j]? = (h.getD s.arr [])[j]?) ∧
      (¬ s.len < s.cap →
        (modifySlice growCap h s).2.arr = h.length ∧
        (modifySlice growCap h s).2.off = 0 ∧
        (modifySlice growCap h s).1.length = h.length + 1 ∧
        (s.arr < h.length →
          ((modifySlice growCap h s).1.getD s.arr []).length = (h.getD s.arr []).length ∧
          ∀ j, ¬ (s.off ≤ j ∧ j < s.off + s.len) →
            ((modifySlice growCap h s).1.getD s.arr [])[j]? = (h.getD s.arr [])[j]?)) ∧
      mainSliceDemo growCap = [2, 4, 6] := by
  have hwf1 := WF_doubleLoop h s hwf
  have hloop := sliceView_doubleLoop h s hwf
  have happ := append_spec growCap (doubleLoop s (List.range s.len) h) s 10 hwf1
  have hmod : modifySlice growCap h s =
      append growCap (doubleLoop s (List.range s.len) h) s 10 := rfl
  have hview : sliceView (modifySlice growCap h s).1 s =
      (sliceView h s).map (fun v => wrapInt (v * 2)) := by
    rw [hmod, happ.1, hloop]
    rfl
  have hplace := append_placement growCap (doubleLoop s (List.range s.len) h) s 10 hwf1
  have hlen1 := doubleLoop_length s (List.range s.len) h
  refine ⟨?_, hview, ?_, ?_, ?_, ?_, ?_, ?_⟩
  · rw [hview, List.length_map]
  · intro i v hv hr
    rw [hview, List.getElem?_map, hv]
    simp only [Option.map_some']
    rw [wrapInt_of_inRange hr]
  · rw [hmod]; exact happ.2.1
  · rw [hmod, happ.2.2, hloop]
    rfl
  · intro hlc
    have hcap : 0 < s.cap := by omega
    have ha := (hwf.2 hcap).1
    obtain ⟨h1, h2, h3, h4, h5⟩ := hplace.1 hlc
    rw [hmod]
    refine ⟨h1, h2, by rw [h3, hlen1], h4, fun j hj => ?_⟩
    rw [h5 j (by omega), (doubleLoop_frame h s ha).2 j (by omega)]
  · intro hlc
    obtain ⟨h1, h2, h3, h4⟩ := hplace.2 hlc
    rw [hmod]
    refine ⟨by rw [h1, hlen1], h2, by rw [h3, hlen1], fun ha => ?_⟩
    rw [h4 s.arr (by rw [hlen1]; exact ha)]
    exact doubleLoop_frame h s ha
  · have hwf0 : Slice.WF [[1, 2, 3]] ⟨0, 0, 3, 3⟩ := by decide
    have hm : mainSliceDemo growCap =
        sliceView (append growCap (doubleLoop ⟨0, 0, 3, 3⟩ (List.range 3) [[1, 2, 3]])
          ⟨0, 0, 3, 3⟩ 10).1 ⟨0, 0, 3, 3⟩ := rfl
    rw [hm, (append_spec growCap _ _ 10 (WF_doubleLoop _ _ hwf0)).1,
      sliceView_doubleLoop _ _ hwf0]
    decide

/-- Witness of `modifySlice_spec`: the slice `[1, 2, 3]` of `main`, whose
capacity is its length, and a slice `[1, 2, 3]` with one spare element of
capacity, where the appended 10 lands in the shared backing array beyond
the caller's length. -/
theorem modifySlice_spec_witness :
    Slice.WF [[1, 2, 3]] ⟨0, 0, 3, 3⟩ ∧
      sliceView (modifySlice (fun c => 2 * c) [[1, 2, 3]] ⟨0, 0, 3, 3⟩).1 ⟨0, 0, 3, 3⟩ =
        (sliceView [[1, 2, 3]] ⟨0, 0, 3, 3⟩).map (fun v => wrapInt (v * 2)) ∧
      sliceView (modifySlice (fun c => 2 * c) [[1, 2, 3]] ⟨0, 0, 3, 3⟩).1 ⟨0, 0, 3, 3⟩ =
        [2, 4, 6] ∧
      Slice.WF [[1, 2, 3, 0]] ⟨0, 0, 3, 4⟩ ∧
      sliceView (modifySlice (fun c => 2 * c) [[1, 2, 3, 0]] ⟨0, 0, 3, 4⟩).1 ⟨0, 0, 3, 4⟩ =
        (sliceView [[1, 2, 3, 0]] ⟨0, 0, 3, 4⟩).map (fun v => wrapInt (v * 2)) ∧
      (modifySlice (fun c => 2 * c) [[1, 2, 3, 0]] ⟨0, 0, 3, 4⟩).1 = [[2, 4, 6, 10]] ∧
      ((modifySlice (fun c => 2 * c) [[1, 2, 3, 0]] ⟨0, 0, 3, 4⟩).1.getD 0 [])[0 + 3]? =
        some 10 ∧
      (modifySlice (fun c => 2 * c) [[1, 2, 3]] ⟨0, 0, 3, 3⟩).2.arr = 1 :=
  ⟨by decide,
    (modifySlice_spec (fun c => 2 * c) [[1, 2, 3]] ⟨0, 0, 3, 3⟩ (by decide)).2.1,
    by decide, by decide,
    (modifySlice_spec (fun c => 2 * c) [[1, 2, 3, 0]] ⟨0, 0, 3, 4⟩ (by decide)).2.1,
    by decide,
    ((modifySlice_spec (fun c => 2 * c) [[1, 2, 3, 0]] ⟨0, 0, 3, 4⟩
      (by decide)).2.2.2.2.2.1 (by decide)).2.2.2.1,
    ((modifySlice_spec (fun c => 2 * c) [[1, 2, 3]] ⟨0, 0, 3, 3⟩
      (by decide)).2.2.2.2.2.2.1 (by decide)).1⟩

end GoFunctions
